import Mathlib

/-
Verification of the LCF cleaning pipeline in
src/event_creation/submission/cleaning/lcf.py (functions run_lcf, lcf,
reconstruct_signal).

Modelling conventions:
  * EEG sample offsets and sample counts are natural numbers; the sample
    rate (eeg.info['sfreq'], a float in the source that always holds an
    integral value for these recordings) is modelled as a natural number.
  * Floating point signal values are modelled as rationals (exact
    arithmetic).
  * numpy indexing errors are modelled by Option: a computation that
    raises (IndexError from an out-of-range or non-integer index,
    ValueError from mismatched array lengths) is represented by none.
    Following numpy >= 1.12, indexing a numpy array with a float value
    (even an integral one) raises IndexError.
  * A phase (one cropped piece of the recording, lines 151-165 of
    lcf.py) is recorded as an inclusive pair (first sample, last sample),
    matching mne's crop(tmin, tmax) which includes tmax.  An exclusion
    interval is likewise the (onset, offset) pair of sample indices the
    source appends to its onsets/offsets lists.
  * Matrices (signals, activations) are functions from row and column
    index to a rational, together with explicit extents; an operation on
    such a function preserves the extents by construction, which models
    numpy elementwise operations preserving array shape.
-/

namespace LcfSpec

/-! Insertion sort over a linear order. np.sort (lines 138-139 of
lcf.py) produces the sorted permutation of its input; for a list of
numbers that permutation is unique, so any correct sort models it. -/

def insertLe {α : Type} [LinearOrder α] (x : α) : List α → List α
  | [] => [x]
  | y :: ys => if x ≤ y then x :: y :: ys else y :: insertLe x ys

def sortLe {α : Type} [LinearOrder α] (xs : List α) : List α :=
  xs.foldr insertLe []

/-! Event markers.  The source reads evs.type strings ('SESS_START',
'SESS_END', 'REST_REWET', 'BREAK_START', 'BREAK_STOP', or any other task
event type) and evs.eegoffset sample offsets; every other event type is
behaviourally identical, so the model collapses them into one
constructor. -/

inductive EvType where
  | sessStart
  | sessEnd
  | restRewet
  | breakStart
  | breakStop
  | other
deriving DecidableEq

structure Ev where
  type : EvType
  eegoffset : ℕ
deriving DecidableEq

def evDefault : Ev := ⟨EvType.other, 0⟩

/-- Element access evs[i] (in-range accesses only; out-of-range access
sites are modelled separately where the source can raise). -/
def evAt (evs : List Ev) (i : ℕ) : Ev := evs.getD i evDefault

/-- Indices of REST_REWET events: np.where(evs.type == 'REST_REWET')[0],
line 101 of lcf.py. -/
def restIdxOf (evs : List Ev) : List ℕ :=
  (List.range evs.length).filter (fun i => (evAt evs i).type = EvType.restRewet)

/-- Indices of BREAK_START events among evs[:-1]:
np.where(evs[:-1].type == 'BREAK_START')[0], line 102 of lcf.py.  The
slice evs[:-1] has indices 0 .. len-2, coinciding with full-array
indices. -/
def breakStartIdxOf (evs : List Ev) : List ℕ :=
  (List.range (evs.length - 1)).filter (fun i => (evAt evs i).type = EvType.breakStart)

/-- Indices of BREAK_STOP events among evs[1:]:
np.where(evs[1:].type == 'BREAK_STOP')[0], line 103 of lcf.py.  Position
i of the slice evs[1:] is full-array position i+1, so the returned
positions are shifted down by one relative to the full array; the source
later indexes the full array with them (line 135). -/
def breakStopIdxOf (evs : List Ev) : List ℕ :=
  (List.range (evs.length - 1)).filter (fun i => (evAt evs (i + 1)).type = EvType.breakStop)

/-- Onsets contributed by lines 91-97 of lcf.py: 0 when evs[0] is
SESS_START, and evs[-1].eegoffset when evs[-1] is SESS_END. -/
def sessOnsets (evs : List Ev) : List ℕ :=
  (if (evAt evs 0).type = EvType.sessStart then [0] else []) ++
  (if (evAt evs (evs.length - 1)).type = EvType.sessEnd
   then [(evAt evs (evs.length - 1)).eegoffset] else [])

/-- Offsets contributed by lines 91-97 of lcf.py: evs[0].eegoffset when
evs[0] is SESS_START, and eeg.n_times - 1 when evs[-1] is SESS_END. -/
def sessOffsets (evs : List Ev) (nTimes : ℕ) : List ℕ :=
  (if (evAt evs 0).type = EvType.sessStart then [(evAt evs 0).eegoffset] else []) ++
  (if (evAt evs (evs.length - 1)).type = EvType.sessEnd then [nTimes - 1] else [])

/-- Onsets of the single-marker (PyEPL REST_REWET) branch, line 107 of
lcf.py: onsets = evs[rest_rewet_idx].eegoffset.  Note this is an
assignment, not an append: it replaces the whole onsets list. -/
def restOnsets (evs : List Ev) : List ℕ :=
  (restIdxOf evs).map (fun i => (evAt evs i).eegoffset)

/-- Offset computed for the REST_REWET event at index idx (lines 108-118
of lcf.py): eeg.n_times - 1 when the break is the final event of the
recording, otherwise evs[idx+1].eegoffset - 5 * samp_rate; when the
computed offset precedes the break onset it is replaced by onset + 1.
The arithmetic is over the integers (the subtraction can go negative
before clamping); the final value is never negative, so toNat is
lossless and records the exact numeric value.  Dtype: samp_rate is a
float, so in the not-final unclamped branch the stored value is an
np.float64 (the final-event branch stores a Python int, the clamp branch
an np.int64); that dtype, which makes the later eeg.times indexing of
line 141 raise, is tracked by restFloatOffsets below and applied in
segmentTrue. -/
def restOffsetAt (evs : List Ev) (nTimes sampRate idx : ℕ) : ℕ :=
  (if (if evs.length = idx + 1 then (nTimes : ℤ) - 1
       else ((evAt evs (idx + 1)).eegoffset : ℤ) - 5 * (sampRate : ℤ))
      < ((evAt evs idx).eegoffset : ℤ)
   then ((evAt evs idx).eegoffset : ℤ) + 1
   else (if evs.length = idx + 1 then (nTimes : ℤ) - 1
         else ((evAt evs (idx + 1)).eegoffset : ℤ) - 5 * (sampRate : ℤ))).toNat

/-- Offsets appended by the REST_REWET loop, lines 108-118 of lcf.py
(numeric values; see restOffsetAt for the dtype of each element). -/
def restOffsets (evs : List Ev) (nTimes sampRate : ℕ) : List ℕ :=
  (restIdxOf evs).map (restOffsetAt evs nTimes sampRate)

/-- Whether the REST_REWET loop stored any np.float64 offset: the
element for index idx is a float exactly when the break is not the final
event (line 114 computes evs[idx+1].eegoffset - 5 * samp_rate with the
float samp_rate) and the clamp of lines 116-117 does not replace it
(onsets[i] + 1 is an np.int64).  One float element makes the whole
np.sort(offsets) array float64, so eeg.times[offsets] at line 141
raises IndexError. -/
def restFloatOffsets (evs : List Ev) (sampRate : ℕ) : Bool :=
  (restIdxOf evs).any (fun idx =>
    decide (¬ evs.length = idx + 1 ∧
      ¬ (((evAt evs (idx + 1)).eegoffset : ℤ) - 5 * (sampRate : ℤ)
          < ((evAt evs idx).eegoffset : ℤ))))

/-- Onsets appended by the paired-marker (UnityEPL BREAK_START/STOP)
branch, lines 124-134 of lcf.py. -/
def pairedOnsets (evs : List Ev) : List ℕ :=
  (if (evAt evs 0).type = EvType.breakStop then [0] else []) ++
  (if (evAt evs (evs.length - 1)).type = EvType.breakStart
   then [(evAt evs (evs.length - 1)).eegoffset] else []) ++
  (breakStartIdxOf evs).map (fun i => (evAt evs i).eegoffset)

/-- Offsets appended by the paired-marker branch, lines 124-135 of
lcf.py.  Line 135 reads evs[break_stop_idx[i]].eegoffset: break_stop_idx
holds positions within the slice evs[1:], but the source indexes the
full evs array with them, i.e. it reads the event one place before each
BREAK_STOP. -/
def pairedOffsets (evs : List Ev) (nTimes : ℕ) : List ℕ :=
  (if (evAt evs 0).type = EvType.breakStop then [(evAt evs 0).eegoffset] else []) ++
  (if (evAt evs (evs.length - 1)).type = EvType.breakStart then [nTimes - 1] else []) ++
  (List.range (breakStartIdxOf evs).length).map
    (fun i => (evAt evs ((breakStopIdxOf evs).getD i 0)).eegoffset)

/-- Onsets and offsets marked for exclusion when skip_breaks is true,
lines 86-135 of lcf.py, together with the sess_start_in_recording flag.
Branch structure of the source: the REST_REWET branch is taken whenever
any REST_REWET event exists (line 106; the misspelling
len(rest_rewet_idx > 0) is behaviourally len(rest_rewet_idx) > 0), the
BREAK_START branch only otherwise (elif, line 121).  Returns none when
the source would raise: evs[0] on an empty selection (IndexError), and
break_stop_idx[i] when there are more loop iterations than BREAK_STOP
positions (IndexError at line 135). -/
def computeOnsetsOffsets (evs : List Ev) (nTimes sampRate : ℕ) :
    Option (List ℕ × List ℕ × Bool) :=
  if evs.length = 0 then none
  else
    let ss := decide ((evAt evs 0).type = EvType.sessStart)
    if (restIdxOf evs) ≠ [] then
      some (restOnsets evs, sessOffsets evs nTimes ++ restOffsets evs nTimes sampRate, ss)
    else if (breakStartIdxOf evs) ≠ [] then
      if (breakStartIdxOf evs).length ≤ (breakStopIdxOf evs).length then
        some (sessOnsets evs ++ pairedOnsets evs,
              sessOffsets evs nTimes ++ pairedOffsets evs nTimes, ss)
      else none
    else some (sessOnsets evs, sessOffsets evs nTimes, ss)

/-- Phase-splitting loop, lines 151-165 of lcf.py, driven by the sorted
offsets array.  The loop keeps a cursor named start, initially the
Python int 0, and for each offset not skipped (the i == 0 offset is
skipped when sess_start_in_recording) crops the recording to
(eeg.times[start], eeg.times[stop]) and then sets
start = eeg.times[stop + 1].

Consequences modelled here, per iteration order:
  * first processed offset: start is the integer 0, so the crop covers
    samples 0 .. stop; the trailing assignment indexes
    eeg.times[stop + 1], raising IndexError when stop + 1 >= n_times
    (in particular whenever the last sorted offset is n_times - 1);
  * any second processed offset: start now holds eeg.times[stop + 1], a
    numpy float64 time in seconds, and eeg.times[start] raises
    IndexError (numpy >= 1.12 rejects float indices).
So the loop completes without raising only when at most one offset is
processed, and it yields at most one phase, (0, stop). -/
def segLoop (offsets : List ℕ) (sessStartFlag : Bool) (nTimes : ℕ) :
    Option (List (ℕ × ℕ)) :=
  match (if sessStartFlag then offsets.drop 1 else offsets) with
  | [] => some []
  | [stop] => if stop + 1 < nTimes then some [(0, stop)] else none
  | _ :: _ :: _ => none

/-- Segmentation with skip_breaks=True, lines 86-165 of lcf.py: compute
the exclusion onsets/offsets, sort each list (lines 138-139), index
eeg.times with both arrays (lines 140-141 — offset_times raises
IndexError when the offsets array is float64, which restFloatOffsets
detects, so that case is none), pair them positionally (the annotation
of lines 142-145 needs the two lists equally long: with different
lengths the resulting onset and duration arrays differ in size and
mne.Annotations raises — modelled as none), and run the phase loop.
Returns (excluded intervals as sorted (onset, offset) pairs, phases). -/
def segmentTrue (evs : List Ev) (nTimes sampRate : ℕ) :
    Option (List (ℕ × ℕ) × List (ℕ × ℕ)) :=
  match computeOnsetsOffsets evs nTimes sampRate with
  | none => none
  | some (onsets, offsets, ss) =>
    if restFloatOffsets evs sampRate then none
    else if onsets.length = offsets.length then
      match segLoop (sortLe offsets) ss nTimes with
      | none => none
      | some phases => some ((sortLe onsets).zip (sortLe offsets), phases)
    else none

/-- Segmentation step of run_lcf.  With skip_breaks=False (lines
173-177 of lcf.py) no exclusion is built and a single ICA is fit on the
whole recording: eeg_list = [eeg], so there is exactly one phase,
covering samples 0 .. n_times - 1, and the exclusion list is empty. -/
def runSegmentation (skipBreaks : Bool) (evs : List Ev) (nTimes sampRate : ℕ) :
    Option (List (ℕ × ℕ) × List (ℕ × ℕ)) :=
  if skipBreaks then segmentTrue evs nTimes sampRate
  else some ([], [(0, nTimes - 1)])

/-- Number of samples covered by a list of inclusive phases; the
concatenation of line 194 of lcf.py has exactly this many samples. -/
def phaseSampleCount (phases : List (ℕ × ℕ)) : ℕ :=
  (phases.map (fun p => p.2 - p.1 + 1)).sum

/-- Relabelling of one BREAK_START/BREAK_STOP event to an ordinary task
event type, keeping its offset. -/
def relabelEv (e : Ev) : Ev :=
  if e.type = EvType.breakStart ∨ e.type = EvType.breakStop
  then ⟨EvType.other, e.eegoffset⟩ else e

/-- Relabelling of all BREAK_START/BREAK_STOP events to an ordinary task
event type, keeping offsets; used to state that the single-marker branch
ignores paired break markers. -/
def relabelBreaks (evs : List Ev) : List Ev :=
  evs.map relabelEv

/-! Concrete marker sequences used by the claims. -/

/-- Recording with one fully logged UnityEPL break and ordinary events
on both sides: markers OTHER@10, BREAK_START@100, BREAK_STOP@200,
OTHER@700, with 1000 samples at 10 Hz. -/
def evsPairedMid : List Ev :=
  [⟨EvType.other, 10⟩, ⟨EvType.breakStart, 100⟩,
   ⟨EvType.breakStop, 200⟩, ⟨EvType.other, 700⟩]

/-- Recording whose final event is a PyEPL break: markers OTHER@10,
REST_REWET@100, with 1000 samples at 10 Hz. -/
def evsRestLast : List Ev :=
  [⟨EvType.other, 10⟩, ⟨EvType.restRewet, 100⟩]

/-- PyEPL recording that begins with SESS_START: markers SESS_START@50,
REST_REWET@100, OTHER@700, with 1000 samples at 10 Hz. -/
def evsSessRest : List Ev :=
  [⟨EvType.sessStart, 50⟩, ⟨EvType.restRewet, 100⟩, ⟨EvType.other, 700⟩]

/-- Recording containing both break-marker conventions, with a rest
break shorter than 5 seconds: markers REST_REWET@100, BREAK_START@120,
BREAK_STOP@400, OTHER@700, with 1000 samples at 10 Hz.  The rest
exclusion offset 120 - 5 * 10 = 70 precedes the onset 100, so lines
116-117 clamp it to the np.int64 101: every stored offset is an
integer, line 141 indexes eeg.times successfully, and segmentation
completes without raising. -/
def evsMixedClamped : List Ev :=
  [⟨EvType.restRewet, 100⟩, ⟨EvType.breakStart, 120⟩,
   ⟨EvType.breakStop, 400⟩, ⟨EvType.other, 700⟩]

/-! Artifact classification, lines 226-238 of lcf.py. -/

/-- Fractional position used by np.percentile with the default linear
interpolation: (len - 1) * q / 100. -/
def pctlPos (len : ℕ) (q : ℚ) : ℚ := ((len : ℚ) - 1) * q / 100

/-- np.percentile(xs, q) with the default linear interpolation: sort the
data, locate the fractional position h = (len - 1) * q / 100, and
interpolate linearly between the values at floor h and floor h + 1 (the
latter clipped to the last element; when h is integral the interpolation
weight is zero and the second value is irrelevant). -/
def percentileQ (xs : List ℚ) (q : ℚ) : ℚ :=
  (sortLe xs).getD (Int.floor (pctlPos xs.length q)).toNat 0 +
    (pctlPos xs.length q - Int.floor (pctlPos xs.length q)) *
      ((sortLe xs).getD ((Int.floor (pctlPos xs.length q)).toNat + 1)
          ((sortLe xs).getD (Int.floor (pctlPos xs.length q)).toNat 0) -
        (sortLe xs).getD (Int.floor (pctlPos xs.length q)).toNat 0)

/-- Row c of the activations matrix feat over its n samples, the data
over which lines 226-227 of lcf.py take percentiles (axis=1). -/
def rowList (feat : ℕ → ℕ → ℚ) (n c : ℕ) : List ℚ :=
  (List.range n).map (feat c)

/-- Upper artifact threshold for component c, lines 226-231 of lcf.py:
pos_thresh = p75 + iqr * iqr_thresh with iqr = p75 - p25. -/
def posThreshOf (feat : ℕ → ℕ → ℚ) (n : ℕ) (k : ℚ) (c : ℕ) : ℚ :=
  percentileQ (rowList feat n c) 75 +
    (percentileQ (rowList feat n c) 75 - percentileQ (rowList feat n c) 25) * k

/-- Lower artifact threshold for component c, lines 226-232 of lcf.py:
neg_thresh = p25 - iqr * iqr_thresh. -/
def negThreshOf (feat : ℕ → ℕ → ℚ) (n : ℕ) (k : ℚ) (c : ℕ) : ℚ :=
  percentileQ (rowList feat n c) 25 -
    (percentileQ (rowList feat n c) 75 - percentileQ (rowList feat n c) 25) * k

/-- Artifact mask, line 238 of lcf.py:
(feat[i, :] > pos_thresh[i]) | (feat[i, :] < neg_thresh[i]), with strict
comparisons. -/
def classifyMask (feat : ℕ → ℕ → ℚ) (n : ℕ) (k : ℚ) (c t : ℕ) : Bool :=
  decide (posThreshOf feat n k c < feat c t ∨ feat c t < negThreshOf feat n k c)

/-! Mixing, lines 235-276 of lcf.py. -/

/-- np.convolve(a, v, 'same') at output index i, for a signal a of
length nA (values beyond the length read as 0) and a kernel v of length
nV with nV <= nA, as in the source where the kernels are fractions of a
second and the signal is a whole recording: entry i of the same-length
convolution is entry i + (nV - 1) / 2 (integer division) of the full
convolution sum_j v(j) * a(k - j). -/
def convSame (a : ℕ → ℚ) (nA : ℕ) (v : ℕ → ℚ) (nV : ℕ) (i : ℕ) : ℚ :=
  ∑ j ∈ Finset.range nV,
    v j * (if j ≤ i + (nV - 1) / 2 ∧ i + (nV - 1) / 2 - j < nA
           then a (i + (nV - 1) / 2 - j) else 0)

/-- Dilation of a mask row, line 239 of lcf.py: same-length convolution
with dilator = np.ones(dilator_width). -/
def dilateRow (mask : ℕ → ℚ) (n dilW : ℕ) (t : ℕ) : ℚ :=
  convSame mask n (fun _ => 1) dilW t

/-- Binarization, line 243 of lcf.py: (ctrl_signal > 0).astype(float). -/
def binarize (x : ℚ) : ℚ := if 0 < x then 1 else 0

/-- Padding amount, line 257 of lcf.py: int(transition_width / 2 + 1),
which equals transition_width / 2 + 1 in integer division for both
parities. -/
def padSize (transW : ℕ) : ℕ := transW / 2 + 1

/-- Edge padding, lines 256-259 of lcf.py: np.pad(row, (p, p), 'edge')
replicates the first value over the p leading positions and the last
value over the p trailing positions. -/
def padRow (b : ℕ → ℚ) (n p : ℕ) (t : ℕ) : ℚ :=
  if t < p then b 0 else if t < p + n then b (t - p) else b (n - 1)

/-- Transition-control signal of one component row, lines 237-270 of
lcf.py: dilate the contamination mask, binarize, edge-pad by
padSize transW on both ends, convolve ('same') with the transition
window w, and drop the padding again (sample t of the trimmed row is
sample t + padSize transW of the smoothed padded row).  In the source w
is trans_win = sp_signal.hann(transition_width, True) divided by its sum
(lines 252-253); its cosine values are irrational, so the window is a
parameter here, and the properties that construction guarantees (all
entries nonnegative, entries summing to one) are hypotheses of the
theorems below.  No operation after this convolution re-binarizes the
row. -/
def buildControl (mask : ℕ → ℚ) (n dilW transW : ℕ) (w : ℕ → ℚ) (t : ℕ) : ℚ :=
  convSame (padRow (fun s => binarize (dilateRow mask n dilW s)) n (padSize transW))
    (n + 2 * padSize transW) w transW (t + padSize transW)

/-- Contamination-mask row of component c as a 0/1 float row, the value
stored into ctrl_signal by line 238 of lcf.py before dilation. -/
def maskRow (feat : ℕ → ℕ → ℚ) (n : ℕ) (k : ℚ) (c t : ℕ) : ℚ :=
  if classifyMask feat n k c t then 1 else 0

/-- Cleaned sources, lcf lines 214-276: S_clean = S * (1 - ctrl_signal),
where ctrl_signal is the transition-control signal built from the
classification of feat.  The output is indexed over the same component
and sample extents as S (the source's elementwise multiply of two
equal-shape arrays). -/
def lcfClean (S feat : ℕ → ℕ → ℚ) (n : ℕ) (k : ℚ) (dilW transW : ℕ)
    (w : ℕ → ℚ) (c t : ℕ) : ℚ :=
  S c t * (1 - buildControl (maskRow feat n k c) n dilW transW w t)

/-! Reconstruction, lines 279-290 of lcf.py. -/

/-- Matrix product entry (A B)(i, j) over an inner dimension. -/
def matMulQ (A B : ℕ → ℕ → ℚ) (inner : ℕ) (i j : ℕ) : ℚ :=
  ∑ k1 ∈ Finset.range inner, A i k1 * B k1 j

/-- reconstruct_signal, lines 279-290 of lcf.py:
data = np.dot(ica.mixing_matrix_, sources);
data = np.dot(np.linalg.inv(ica.pca_components_), data);
data += ica.pca_mean_[:, None];
data *= ica.pre_whitener_.
The matrix np.linalg.inv(ica.pca_components_) is computed by an external
LAPACK routine, so it enters the model as the parameter pcaInv; nComp is
the number of components (inner dimension of the first product), nPCA
the number of PCA components / channels (inner dimension of the
second). -/
def reconstruct_signal (mixing pcaInv : ℕ → ℕ → ℚ) (pcaMean preWhitener : ℕ → ℚ)
    (sources : ℕ → ℕ → ℚ) (nComp nPCA : ℕ) (i j : ℕ) : ℚ :=
  preWhitener i * (matMulQ pcaInv (matMulQ mixing sources nComp) nPCA i j + pcaMean i)

/-- Modelled from the spec: step (1) of the Reconstructor contract,
multiply by the mixing matrix to return to pre-whitened component
space. -/
def specMixStep (mixing cleaned : ℕ → ℕ → ℚ) (nComp : ℕ) : ℕ → ℕ → ℚ :=
  matMulQ mixing cleaned nComp

/-- Modelled from the spec: step (2), multiply by the inverse of the
whitening transform. -/
def specUnwhitenStep (pcaInv x : ℕ → ℕ → ℚ) (nPCA : ℕ) : ℕ → ℕ → ℚ :=
  matMulQ pcaInv x nPCA

/-- Modelled from the spec: step (3), add back the per-channel mean that
was subtracted before decomposition. -/
def specAddMeanStep (mean : ℕ → ℚ) (x : ℕ → ℕ → ℚ) : ℕ → ℕ → ℚ :=
  fun i j => x i j + mean i

/-- Modelled from the spec: step (4), multiply by the per-channel
pre-whitening scale factor. -/
def specScaleStep (preWhitener : ℕ → ℚ) (x : ℕ → ℕ → ℚ) : ℕ → ℕ → ℚ :=
  fun i j => preWhitener i * x i j

/-! Concrete signals and windows used by the claims. -/

/-- The all-zero contamination mask row. -/
def zeroMask : ℕ → ℚ := fun _ => 0

/-- Mask row (1, 0) of a 2-sample component: contaminated first
sample. -/
def exMask : ℕ → ℚ := fun t => if t = 0 then 1 else 0

/-- Normalized symmetric Hann window of width 5.  Here
sp_signal.hann(5, True) = (0, 1/2, 1, 1/2, 0) exactly, so after the
normalization of line 253 the window is (0, 1/4, 1/2, 1/4, 0), a window
the model can evaluate exactly. -/
def exWin : ℕ → ℚ :=
  fun j => if j = 1 then 1/4 else if j = 2 then 1/2 else if j = 3 then 1/4 else 0

/-- Activations row (10, 0, 0, 0) on four samples: one spike. -/
def exFeat : ℕ → ℕ → ℚ := fun _ t => if t = 0 then 10 else 0

/-- Constant source signal of value 2. -/
def exSig : ℕ → ℕ → ℚ := fun _ _ => 2

/-!
Theorems.
-/

theorem length_insertLe {α : Type} [LinearOrder α] (x : α) (l : List α) :
    (insertLe x l).length = l.length + 1 := by
  induction l with
  | nil => rfl
  | cons y ys ih =>
    simp only [insertLe]
    split
    · rfl
    · simp [ih]

theorem mem_insertLe {α : Type} [LinearOrder α] (y x : α) (l : List α) :
    y ∈ insertLe x l ↔ y = x ∨ y ∈ l := by
  induction l with
  | nil => simp [insertLe]
  | cons z zs ih =>
    simp only [insertLe]
    split
    · simp [or_comm, or_assoc, or_left_comm]
    · simp [ih]
      tauto

theorem length_sortLe {α : Type} [LinearOrder α] (xs : List α) :
    (sortLe xs).length = xs.length := by
  induction xs with
  | nil => rfl
  | cons x l ih => simp [sortLe, List.foldr] at ih ⊢; rw [length_insertLe, ih]

theorem mem_sortLe {α : Type} [LinearOrder α] (y : α) (xs : List α) :
    y ∈ sortLe xs ↔ y ∈ xs := by
  induction xs with
  | nil => simp [sortLe]
  | cons x l ih =>
    simp only [sortLe, List.foldr] at ih ⊢
    rw [mem_insertLe]
    simp [ih]

theorem getD_map_lt {α β : Type} (f : α → β) (l : List α) (i : ℕ) (d : α) (d' : β)
    (h : i < l.length) : (l.map f).getD i d' = f (l.getD i d) := by
  induction l generalizing i with
  | nil => simp at h
  | cons x xs ih =>
    cases i with
    | zero => rfl
    | succ n =>
      simp only [List.map, List.getD_cons_succ]
      exact ih n (by simpa using h)

theorem getD_map_all {α β : Type} (f : α → β) (l : List α) (i : ℕ) (d : α) :
    (l.map f).getD i (f d) = f (l.getD i d) := by
  induction l generalizing i with
  | nil => cases i <;> rfl
  | cons x xs ih => cases i with
    | zero => rfl
    | succ n =>
      simp only [List.map_cons, List.getD_cons_succ]
      exact ih n

theorem relabelEv_default : relabelEv evDefault = evDefault := by decide

theorem relabel_length (evs : List Ev) :
    (relabelBreaks evs).length = evs.length := by
  simp [relabelBreaks]

theorem relabel_evAt (evs : List Ev) (i : ℕ) :
    evAt (relabelBreaks evs) i = relabelEv (evAt evs i) := by
  unfold evAt relabelBreaks
  calc (evs.map relabelEv).getD i evDefault
      = (evs.map relabelEv).getD i (relabelEv evDefault) := by rw [relabelEv_default]
    _ = relabelEv (evs.getD i evDefault) := getD_map_all _ _ _ _

theorem relabelEv_eegoffset (e : Ev) : (relabelEv e).eegoffset = e.eegoffset := by
  unfold relabelEv
  split <;> rfl

theorem relabelEv_type_sessStart (e : Ev) :
    (relabelEv e).type = EvType.sessStart ↔ e.type = EvType.sessStart := by
  unfold relabelEv
  split
  · rename_i h
    rcases h with h | h <;> simp [h]
  · exact Iff.rfl

theorem relabelEv_type_sessEnd (e : Ev) :
    (relabelEv e).type = EvType.sessEnd ↔ e.type = EvType.sessEnd := by
  unfold relabelEv
  split
  · rename_i h
    rcases h with h | h <;> simp [h]
  · exact Iff.rfl

theorem relabelEv_type_rest (e : Ev) :
    (relabelEv e).type = EvType.restRewet ↔ e.type = EvType.restRewet := by
  unfold relabelEv
  split
  · rename_i h
    rcases h with h | h <;> simp [h]
  · exact Iff.rfl

theorem relabel_restIdx (evs : List Ev) :
    restIdxOf (relabelBreaks evs) = restIdxOf evs := by
  unfold restIdxOf
  rw [relabel_length]
  apply List.filter_congr
  intro a _
  rw [decide_eq_decide, relabel_evAt]
  exact relabelEv_type_rest _

theorem relabel_restOnsets (evs : List Ev) :
    restOnsets (relabelBreaks evs) = restOnsets evs := by
  unfold restOnsets
  rw [relabel_restIdx]
  apply List.map_congr_left
  intro a _
  rw [relabel_evAt, relabelEv_eegoffset]

theorem relabel_restOffsets (evs : List Ev) (nTimes sampRate : ℕ) :
    restOffsets (relabelBreaks evs) nTimes sampRate = restOffsets evs nTimes sampRate := by
  unfold restOffsets
  rw [relabel_restIdx]
  apply List.map_congr_left
  intro a _
  unfold restOffsetAt
  rw [relabel_length]
  simp only [relabel_evAt, relabelEv_eegoffset]

theorem relabel_sessOffsets (evs : List Ev) (nTimes : ℕ) :
    sessOffsets (relabelBreaks evs) nTimes = sessOffsets evs nTimes := by
  unfold sessOffsets
  rw [relabel_length]
  simp only [relabel_evAt, relabelEv_eegoffset, relabelEv_type_sessStart,
    relabelEv_type_sessEnd]

/-- C1.  On the marker sequence OTHER@10, BREAK_START@100,
BREAK_STOP@200, OTHER@700 with total_samples = 1000 the segmentation
loop of run_lcf yields the single phase (0, 100): the loop creates one
phase per excluded offset and none from the last break offset to the end
of the recording, so samples 101-999 belong to no phase and the phases
cover 101 of the 1000 samples — the phases do not partition
[0, total_samples) and the final phase does not run to total_samples,
contradicting the claim (and the source's own comment at lines 147-150,
which promises a final part running to the end of the recording).  The
returned exclusion is (100, 100) rather than (100, 200) because line 135
indexes the full event array with a position computed in evs[1:]. -/
theorem run_lcf_phases_do_not_partition :
    segmentTrue evsPairedMid 1000 10 = some ([(100, 100)], [(0, 100)]) ∧
    phaseSampleCount [(0, 100)] = 101 ∧ (101 : ℕ) ≠ 1000 := by
  refine ⟨by decide, by decide, by decide⟩

/-- C2 counterexample.  On the marker sequence OTHER@10, REST_REWET@100
with total_samples = 1000 and sample_rate = 10, the REST_REWET event is
the last marker and run_lcf records the exclusion offset
eeg.n_times - 1 = 999, not total_samples = 1000 as the claim states. -/
theorem rest_break_last_offset_not_total_samples :
    computeOnsetsOffsets evsRestLast 1000 10 = some ([100], [999], false) ∧
    (999 : ℕ) ≠ 1000 := by
  refine ⟨by decide, by decide⟩

/-- C2 amended.  Under the single-marker convention, the i-th break
exclusion recorded by lines 106-118 of run_lcf starts at the i-th
REST_REWET marker's offset and ends at evs[idx+1].eegoffset -
5 * samp_rate (five seconds before the next marker's offset), or at
eeg.n_times - 1 (total_samples - 1, the final sample index — not
total_samples) when the REST_REWET is the last marker; whenever that
computed end precedes the start, the end is replaced by start + 1. -/
theorem rest_break_exclusion_formula (evs : List Ev) (nTimes sampRate i : ℕ)
    (hi : i < (restIdxOf evs).length) :
    (restOnsets evs).getD i 0 = (evAt evs ((restIdxOf evs).getD i 0)).eegoffset ∧
    (restOffsets evs nTimes sampRate).getD i 0 =
      (if (if evs.length = (restIdxOf evs).getD i 0 + 1 then (nTimes : ℤ) - 1
           else ((evAt evs ((restIdxOf evs).getD i 0 + 1)).eegoffset : ℤ)
                  - 5 * (sampRate : ℤ))
          < ((evAt evs ((restIdxOf evs).getD i 0)).eegoffset : ℤ)
       then ((evAt evs ((restIdxOf evs).getD i 0)).eegoffset : ℤ) + 1
       else (if evs.length = (restIdxOf evs).getD i 0 + 1 then (nTimes : ℤ) - 1
             else ((evAt evs ((restIdxOf evs).getD i 0 + 1)).eegoffset : ℤ)
                    - 5 * (sampRate : ℤ))).toNat := by
  constructor
  · exact getD_map_lt _ _ i 0 0 hi
  · exact getD_map_lt (restOffsetAt evs nTimes sampRate) (restIdxOf evs) i 0 0 hi

/-- C2 amended, witness: the formula evaluated on the sequence
OTHER@10, REST_REWET@100 (total_samples 1000, sample_rate 10). -/
theorem rest_break_exclusion_formula_witness :
    0 < (restIdxOf evsRestLast).length ∧
    ((restOnsets evsRestLast).getD 0 0 =
        (evAt evsRestLast ((restIdxOf evsRestLast).getD 0 0)).eegoffset ∧
      (restOffsets evsRestLast 1000 10).getD 0 0 =
        (if (if evsRestLast.length = (restIdxOf evsRestLast).getD 0 0 + 1
             then (1000 : ℤ) - 1
             else ((evAt evsRestLast ((restIdxOf evsRestLast).getD 0 0 + 1)).eegoffset : ℤ)
                    - 5 * (10 : ℤ))
            < ((evAt evsRestLast ((restIdxOf evsRestLast).getD 0 0)).eegoffset : ℤ)
         then ((evAt evsRestLast ((restIdxOf evsRestLast).getD 0 0)).eegoffset : ℤ) + 1
         else (if evsRestLast.length = (restIdxOf evsRestLast).getD 0 0 + 1
               then (1000 : ℤ) - 1
               else ((evAt evsRestLast ((restIdxOf evsRestLast).getD 0 0 + 1)).eegoffset : ℤ)
                      - 5 * (10 : ℤ))).toNat) :=
  ⟨by decide, rest_break_exclusion_formula evsRestLast 1000 10 0 (by decide)⟩

/-- C3.  On the marker sequence SESS_START@50, REST_REWET@100, OTHER@700
(total_samples 1000, sample_rate 10) the pre-session exclusion is lost:
lines 91-94 append onset 0 and offset 50, but line 107 then replaces the
whole onsets list with the REST_REWET offsets, leaving
onsets = [100] against offsets = [50, 650].  The leading exclusion's
onset 0 is gone and segmentation then raises: line 141 first (the
unclamped offset 650 makes the offsets array float64), and the
mismatched lengths would independently make the annotation construction
of lines 142-144 fail — the claimed matching (start, end) pairs never
exist, contradicting the claim and the source's own comment at line 90
('Mark all time points before and after the session for exclusion'). -/
theorem leading_exclusion_lost_under_rest_convention :
    computeOnsetsOffsets evsSessRest 1000 10 = some ([100], [50, 650], true) ∧
    segmentTrue evsSessRest 1000 10 = none := by
  refine ⟨by decide, by decide⟩

/-- C4 counterexample.  On the marker sequence REST_REWET@100,
BREAK_START@120, BREAK_STOP@400, OTHER@700 (total_samples 1000,
sample_rate 10) both break-marker conventions are present, yet run_lcf
produces a result instead of failing: the single-marker branch runs,
the sub-5-second rest break is clamped to the integer offset 101 (so no
float enters the offsets array and line 141 indexes eeg.times without
raising), and segmentation returns the exclusion (100, 101) and phase
(0, 101) as if the paired markers were ordinary events — no error of
any kind, let alone one identifying the conflicting marker types. -/
theorem mixed_conventions_not_rejected :
    restIdxOf evsMixedClamped ≠ [] ∧ breakStartIdxOf evsMixedClamped ≠ [] ∧
    segmentTrue evsMixedClamped 1000 10 = some ([(100, 101)], [(0, 101)]) := by
  refine ⟨by decide, by decide, by decide⟩

/-- C4 amended.  A marker sequence containing both conventions is never
detected or rejected as a conflict: whenever a REST_REWET event is
present the single-marker branch takes precedence (line 106 before the
elif of line 121) and the marker scan of lines 86-135 completes without
raising (first conjunct); and the BREAK_START/BREAK_STOP markers play no
role at all — relabelling them to ordinary events leaves the whole
segmentation outcome unchanged (second conjunct), so whether
segmentation later succeeds (as on evsMixedClamped) or raises at line
141 (the float 5-second subtraction) is decided identically with or
without the paired markers and never by their presence. -/
theorem rest_convention_takes_precedence (evs : List Ev) (nTimes sampRate : ℕ)
    (hrest : restIdxOf evs ≠ []) :
    (computeOnsetsOffsets evs nTimes sampRate).isSome = true ∧
    segmentTrue evs nTimes sampRate = segmentTrue (relabelBreaks evs) nTimes sampRate := by
  have hlen : ¬ evs.length = 0 := by
    intro h0
    exact hrest (by simp [restIdxOf, h0])
  have hrest' : restIdxOf (relabelBreaks evs) ≠ [] := by
    rw [relabel_restIdx]; exact hrest
  have hlen' : ¬ (relabelBreaks evs).length = 0 := by
    rw [relabel_length]; exact hlen
  have hco : computeOnsetsOffsets evs nTimes sampRate =
      computeOnsetsOffsets (relabelBreaks evs) nTimes sampRate := by
    unfold computeOnsetsOffsets
    simp only [hlen, hlen', hrest, hrest', ne_eq, not_false_eq_true, if_true,
      if_false, ite_false, ite_true]
    rw [relabel_restOnsets, relabel_sessOffsets, relabel_restOffsets]
    have hss : (evAt (relabelBreaks evs) 0).type = EvType.sessStart ↔
        (evAt evs 0).type = EvType.sessStart := by
      rw [relabel_evAt]; exact relabelEv_type_sessStart _
    simp [hss]
  have hfl : restFloatOffsets (relabelBreaks evs) sampRate =
      restFloatOffsets evs sampRate := by
    unfold restFloatOffsets
    simp only [relabel_restIdx, relabel_length, relabel_evAt, relabelEv_eegoffset]
  constructor
  · unfold computeOnsetsOffsets
    simp [hlen, hrest]
  · unfold segmentTrue
    rw [← hco, hfl]

/-- C4 amended, witness: the precedence theorem evaluated on the
mixed-convention sequence REST_REWET@100, BREAK_START@120,
BREAK_STOP@400, OTHER@700. -/
theorem rest_convention_takes_precedence_witness :
    restIdxOf evsMixedClamped ≠ [] ∧
    ((computeOnsetsOffsets evsMixedClamped 1000 10).isSome = true ∧
      segmentTrue evsMixedClamped 1000 10 =
        segmentTrue (relabelBreaks evsMixedClamped) 1000 10) :=
  ⟨by decide, rest_convention_takes_precedence evsMixedClamped 1000 10 (by decide)⟩

/-- C9.  With skip_breaks false, run_lcf builds no exclusion intervals
and processes the recording as a single phase spanning all of
[0, total_samples): eeg_list = [eeg] and ica_list = [ica] each have one
entry, with the one ICA fit on the full recording (lines 173-177). -/
theorem skip_breaks_false_single_phase (evs : List Ev) (nTimes sampRate : ℕ)
    (hn : 0 < nTimes) :
    runSegmentation false evs nTimes sampRate = some ([], [(0, nTimes - 1)]) ∧
    ([((0 : ℕ), nTimes - 1)]).length = 1 ∧
    phaseSampleCount [(0, nTimes - 1)] = nTimes := by
  refine ⟨rfl, rfl, ?_⟩
  simp [phaseSampleCount]
  omega

/-- C9 witness: skip_breaks false on a 5-sample recording with no
markers. -/
theorem skip_breaks_false_single_phase_witness :
    0 < 5 ∧
    (runSegmentation false [] 5 10 = some ([], [(0, 5 - 1)]) ∧
      ([((0 : ℕ), 5 - 1)]).length = 1 ∧
      phaseSampleCount [(0, 5 - 1)] = 5) :=
  ⟨by decide, skip_breaks_false_single_phase [] 5 10 (by decide)⟩

theorem getD_mem_of_lt {α : Type} (l : List α) (i : ℕ) (d : α) (h : i < l.length) :
    l.getD i d ∈ l := by
  induction l generalizing i with
  | nil => simp at h
  | cons x xs ih =>
    cases i with
    | zero => simp
    | succ m =>
      simp only [List.getD_cons_succ]
      exact List.mem_cons_of_mem _ (ih m (by simpa using h))

theorem percentileQ_const (xs : List ℚ) (q v : ℚ) (hne : xs ≠ [])
    (hall : ∀ x ∈ xs, x = v) (_hq0 : 0 ≤ q) (hq1 : q ≤ 100) :
    percentileQ xs q = v := by
  have hlen : 0 < xs.length := List.length_pos.mpr hne
  have hsl : (sortLe xs).length = xs.length := length_sortLe xs
  have hallS : ∀ x ∈ sortLe xs, x = v := fun x hx => hall x ((mem_sortLe x xs).mp hx)
  have hpos : pctlPos xs.length q ≤ (xs.length : ℚ) - 1 := by
    unfold pctlPos
    rw [div_le_iff₀ (by norm_num : (0:ℚ) < 100)]
    have h1 : (0:ℚ) ≤ (xs.length : ℚ) - 1 := by
      have h2 : (1:ℚ) ≤ (xs.length : ℚ) := by exact_mod_cast hlen
      linarith
    nlinarith
  have hfl : (Int.floor (pctlPos xs.length q)).toNat < xs.length := by
    have h2 : Int.floor (pctlPos xs.length q) ≤ Int.floor ((xs.length : ℚ) - 1) :=
      Int.floor_le_floor hpos
    have h3 : Int.floor ((xs.length : ℚ) - 1) = (xs.length : ℤ) - 1 := by
      rw [show ((xs.length : ℚ) - 1) = (((xs.length : ℤ) - 1 : ℤ) : ℚ) by push_cast; ring]
      exact Int.floor_intCast _
    rw [h3] at h2
    omega
  have hx0 : (sortLe xs).getD (Int.floor (pctlPos xs.length q)).toNat 0 = v := by
    apply hallS
    exact getD_mem_of_lt _ _ _ (by rw [hsl]; exact hfl)
  have hx1 : (sortLe xs).getD ((Int.floor (pctlPos xs.length q)).toNat + 1)
      ((sortLe xs).getD (Int.floor (pctlPos xs.length q)).toNat 0) = v := by
    by_cases hlt : (Int.floor (pctlPos xs.length q)).toNat + 1 < (sortLe xs).length
    · exact hallS _ (getD_mem_of_lt _ _ _ hlt)
    · rw [List.getD_eq_default _ _ (by omega)]
      exact hx0
  unfold percentileQ
  rw [hx0] at hx1
  rw [hx0, hx1]
  ring

/-- C5.  The classifier of lcf (lines 226-238) marks sample t of
component c artifactual exactly when the activation is strictly above
p75 + (p75 - p25) * iqr_thresh or strictly below
p25 - (p75 - p25) * iqr_thresh, the percentiles being np.percentile of
the component's row; and a constant row (whose p75 and p25 coincide)
yields an all-false mask. -/
theorem classifier_iqr_mask (feat : ℕ → ℕ → ℚ) (n : ℕ) (k : ℚ) (c t : ℕ)
    (hn : 0 < n) :
    (classifyMask feat n k c t = true ↔
      (posThreshOf feat n k c < feat c t ∨ feat c t < negThreshOf feat n k c)) ∧
    (∀ v : ℚ, (∀ s, s < n → feat c s = v) → t < n → classifyMask feat n k c t = false) := by
  constructor
  · simp [classifyMask]
  · intro v hv ht
    have hrow : ∀ x ∈ rowList feat n c, x = v := by
      intro x hx
      simp only [rowList, List.mem_map, List.mem_range] at hx
      obtain ⟨s, hs, rfl⟩ := hx
      exact hv s hs
    have hne : rowList feat n c ≠ [] := by
      simp only [rowList, ne_eq, List.map_eq_nil_iff, List.range_eq_nil]
      omega
    have hp75 : percentileQ (rowList feat n c) 75 = v :=
      percentileQ_const _ _ _ hne hrow (by norm_num) (by norm_num)
    have hp25 : percentileQ (rowList feat n c) 25 = v :=
      percentileQ_const _ _ _ hne hrow (by norm_num) (by norm_num)
    simp [classifyMask, posThreshOf, negThreshOf, hp75, hp25, hv t ht, sub_self]

/-- C5 witness: the classifier theorem evaluated on a 4-sample row with
one spike (10, 0, 0, 0), iqr_thresh 3. -/
theorem classifier_iqr_mask_witness :
    0 < 4 ∧
    ((classifyMask exFeat 4 3 0 0 = true ↔
        (posThreshOf exFeat 4 3 0 < exFeat 0 0 ∨ exFeat 0 0 < negThreshOf exFeat 4 3 0)) ∧
      (∀ v : ℚ, (∀ s, s < 4 → exFeat 0 s = v) → 0 < 4 →
        classifyMask exFeat 4 3 0 0 = false)) :=
  ⟨by decide, classifier_iqr_mask exFeat 4 3 0 0 (by decide)⟩

/-- C6.  When the contamination mask of a component row is all zero,
the transition-control signal obtained by dilation (line 239),
binarization (line 243), edge padding (lines 256-259) and smoothing
(lines 263-270) is identically zero, and the mixing step
S_clean = S * (1 - ctrl_signal) of line 274 returns the source row
unchanged (exactly, in this exact-arithmetic model). -/
theorem zero_mask_zero_control (mask : ℕ → ℚ) (n dilW transW : ℕ) (w : ℕ → ℚ)
    (hz : ∀ t, t < n → mask t = 0) :
    (∀ t, buildControl mask n dilW transW w t = 0) ∧
    (∀ (S : ℕ → ℚ) (t : ℕ), S t * (1 - buildControl mask n dilW transW w t) = S t) := by
  have hdil : ∀ s, dilateRow mask n dilW s = 0 := by
    intro s
    unfold dilateRow convSame
    apply Finset.sum_eq_zero
    intro j _
    by_cases hc : j ≤ s + (dilW - 1) / 2 ∧ s + (dilW - 1) / 2 - j < n
    · rw [if_pos hc, hz _ hc.2, mul_zero]
    · rw [if_neg hc, mul_zero]
  have hb : ∀ s, binarize (dilateRow mask n dilW s) = 0 := by
    intro s
    rw [hdil]
    simp [binarize]
  have hpad : ∀ s,
      padRow (fun u => binarize (dilateRow mask n dilW u)) n (padSize transW) s = 0 := by
    intro s
    unfold padRow
    split_ifs <;> exact hb _
  have hctrl : ∀ t, buildControl mask n dilW transW w t = 0 := by
    intro t
    unfold buildControl convSame
    apply Finset.sum_eq_zero
    intro j _
    by_cases hc : j ≤ t + padSize transW + (transW - 1) / 2 ∧
        t + padSize transW + (transW - 1) / 2 - j < n + 2 * padSize transW
    · rw [if_pos hc, hpad, mul_zero]
    · rw [if_neg hc, mul_zero]
  exact ⟨hctrl, fun S t => by rw [hctrl t]; ring⟩

/-- C6 witness: the zero-mask theorem evaluated on a 3-sample row with
dilator width 1, transition width 3 and the width-5 window. -/
theorem zero_mask_zero_control_witness :
    (∀ t, t < 3 → zeroMask t = 0) ∧
    ((∀ t, buildControl zeroMask 3 1 3 exWin t = 0) ∧
      (∀ (S : ℕ → ℚ) (t : ℕ), S t * (1 - buildControl zeroMask 3 1 3 exWin t) = S t)) :=
  ⟨fun _ _ => rfl, zero_mask_zero_control zeroMask 3 1 3 exWin (fun _ _ => rfl)⟩

theorem binarize_mem_unit (x : ℚ) : 0 ≤ binarize x ∧ binarize x ≤ 1 := by
  unfold binarize
  split <;> norm_num

theorem buildControl_mem_unit (mask : ℕ → ℚ) (n dilW transW : ℕ) (w : ℕ → ℚ)
    (hw : ∀ j, j < transW → 0 ≤ w j)
    (hsum : ∑ j ∈ Finset.range transW, w j ≤ 1) (t : ℕ) :
    0 ≤ buildControl mask n dilW transW w t ∧ buildControl mask n dilW transW w t ≤ 1 := by
  have hpad : ∀ s,
      0 ≤ padRow (fun u => binarize (dilateRow mask n dilW u)) n (padSize transW) s ∧
      padRow (fun u => binarize (dilateRow mask n dilW u)) n (padSize transW) s ≤ 1 := by
    intro s
    unfold padRow
    split_ifs <;> exact binarize_mem_unit _
  constructor
  · unfold buildControl convSame
    apply Finset.sum_nonneg
    intro j hj
    refine mul_nonneg (hw j (Finset.mem_range.mp hj)) ?_
    split_ifs with hc
    · exact (hpad _).1
    · exact le_refl 0
  · unfold buildControl convSame
    refine le_trans (Finset.sum_le_sum ?_) hsum
    intro j hj
    have hwj := hw j (Finset.mem_range.mp hj)
    split_ifs with hc
    · exact mul_le_of_le_one_right hwj (hpad _).2
    · simpa using hwj

/-- C7.  For a binary contamination mask, every sample of the
transition-control signal built by dilation, binarization, edge padding
and Hann smoothing lies in [0, 1] (for any window with nonnegative
entries summing to one, as the normalized Hann window of lines 252-253
has); and the smoothed row is not re-binarized: on the concrete mask
(1, 0) with dilator width 1 and the exact normalized width-5 Hann
window, the control signal takes the strictly fractional value 1/4,
which a re-binarized row could never hold. -/
theorem control_values_in_unit_interval (mask : ℕ → ℚ) (n dilW transW : ℕ)
    (w : ℕ → ℚ)
    (_hbin : ∀ t, mask t = 0 ∨ mask t = 1)
    (hw : ∀ j, j < transW → 0 ≤ w j)
    (hsum : ∑ j ∈ Finset.range transW, w j = 1) :
    (∀ t, 0 ≤ buildControl mask n dilW transW w t ∧
      buildControl mask n dilW transW w t ≤ 1) ∧
    (buildControl exMask 2 1 5 exWin 1 = 1/4 ∧ (1/4 : ℚ) ≠ 0 ∧ (1/4 : ℚ) ≠ 1) := by
  refine ⟨fun t => buildControl_mem_unit mask n dilW transW w hw hsum.le t,
    ?_, by norm_num, by norm_num⟩
  norm_num [buildControl, convSame, padRow, padSize, binarize, dilateRow,
    exMask, exWin, Finset.sum_range_succ]

/-- C7 witness: the boundedness theorem evaluated on the mask (1, 0)
with the exact normalized width-5 Hann window. -/
theorem control_values_in_unit_interval_witness :
    (∀ t, exMask t = 0 ∨ exMask t = 1) ∧ (∀ j, j < 5 → 0 ≤ exWin j) ∧
    (∑ j ∈ Finset.range 5, exWin j = 1) ∧
    ((∀ t, 0 ≤ buildControl exMask 2 1 5 exWin t ∧
        buildControl exMask 2 1 5 exWin t ≤ 1) ∧
      (buildControl exMask 2 1 5 exWin 1 = 1/4 ∧ (1/4 : ℚ) ≠ 0 ∧ (1/4 : ℚ) ≠ 1)) := by
  have hbin : ∀ t, exMask t = 0 ∨ exMask t = 1 := by
    intro t
    unfold exMask
    split_ifs <;> simp
  have hw : ∀ j, j < 5 → 0 ≤ exWin j := by
    intro j hj
    interval_cases j <;> norm_num [exWin]
  have hsum : ∑ j ∈ Finset.range 5, exWin j = 1 := by
    norm_num [Finset.sum_range_succ, exWin]
  exact ⟨hbin, hw, hsum,
    control_values_in_unit_interval exMask 2 1 5 exWin hbin hw hsum⟩

/-- C8.  reconstruct_signal computes exactly the composition, in this
order, of the four inverse steps the spec lists: multiply by the mixing
matrix, multiply by the inverse of the whitening transform, add the
per-channel mean, multiply by the per-channel pre-whitening scale
factor. -/
theorem reconstruct_inverse_steps_in_order
    (mixing pcaInv : ℕ → ℕ → ℚ) (pcaMean preWhitener : ℕ → ℚ)
    (sources : ℕ → ℕ → ℚ) (nComp nPCA : ℕ) (i j : ℕ) :
    reconstruct_signal mixing pcaInv pcaMean preWhitener sources nComp nPCA i j =
      specScaleStep preWhitener
        (specAddMeanStep pcaMean
          (specUnwhitenStep pcaInv (specMixStep mixing sources nComp) nPCA)) i j := rfl

/-- C10.  Cleaning never amplifies or inverts a sample: for any window
with nonnegative entries summing to one (as the normalized Hann window
has), every cleaned sample S_clean = S * (1 - ctrl) satisfies
|S_clean| <= |S| and S_clean * S >= 0 (same sign as the input or zero);
lcfClean is defined on the same component/sample extents as S, modelling
that the output array has the input's shape. -/
theorem lcf_clean_contracts (S feat : ℕ → ℕ → ℚ) (n : ℕ) (k : ℚ)
    (dilW transW : ℕ) (w : ℕ → ℚ)
    (hw : ∀ j, j < transW → 0 ≤ w j)
    (hsum : ∑ j ∈ Finset.range transW, w j = 1) (c t : ℕ) :
    |lcfClean S feat n k dilW transW w c t| ≤ |S c t| ∧
    0 ≤ lcfClean S feat n k dilW transW w c t * S c t := by
  obtain ⟨h0, h1⟩ :=
    buildControl_mem_unit (maskRow feat n k c) n dilW transW w hw hsum.le t
  unfold lcfClean
  constructor
  · rw [abs_mul]
    have habs : |1 - buildControl (maskRow feat n k c) n dilW transW w t| ≤ 1 :=
      abs_le.mpr ⟨by linarith, by linarith⟩
    calc |S c t| * |1 - buildControl (maskRow feat n k c) n dilW transW w t|
        ≤ |S c t| * 1 := mul_le_mul_of_nonneg_left habs (abs_nonneg _)
      _ = |S c t| := mul_one _
  · have h2 : 0 ≤ 1 - buildControl (maskRow feat n k c) n dilW transW w t := by
      linarith
    have h3 : S c t * (1 - buildControl (maskRow feat n k c) n dilW transW w t) * S c t
        = S c t ^ 2 * (1 - buildControl (maskRow feat n k c) n dilW transW w t) := by
      ring
    rw [h3]
    exact mul_nonneg (sq_nonneg _) h2

/-- C10 witness: the contraction theorem evaluated on the constant
source 2 with the spike activations row and the exact normalized
width-5 Hann window. -/
theorem lcf_clean_contracts_witness :
    (∀ j, j < 5 → 0 ≤ exWin j) ∧ (∑ j ∈ Finset.range 5, exWin j = 1) ∧
    (|lcfClean exSig exFeat 4 3 1 5 exWin 0 0| ≤ |exSig 0 0| ∧
      0 ≤ lcfClean exSig exFeat 4 3 1 5 exWin 0 0 * exSig 0 0) := by
  have hw : ∀ j, j < 5 → 0 ≤ exWin j := by
    intro j hj
    interval_cases j <;> norm_num [exWin]
  have hsum : ∑ j ∈ Finset.range 5, exWin j = 1 := by
    norm_num [Finset.sum_range_succ, exWin]
  exact ⟨hw, hsum, lcf_clean_contracts exSig exFeat 4 3 1 5 exWin hw hsum 0 0⟩

end LcfSpec
